import Mathlib

/-!
Verification of the beenet peer-to-peer networking library against its
natural-language specification.

Bytes are modelled as `List Nat` (one entry per byte).  The external
cryptographic primitives (BLAKE2b from `hashlib`, Ed25519 from PyNaCl,
ChaCha20-Poly1305 and HKDF from the `cryptography` package) are not part of
this repository; where a claim only depends on how the repository code uses
such a primitive, the primitive is either abstracted as an explicit function
parameter or modelled from the spec, as noted on each definition.
-/

/-- Byte strings are lists of naturals (one per byte). -/
abbrev Bytes := List Nat

/- ----------------------------------------------------------------------
   src/beenet/transfer/merkle.py
   ---------------------------------------------------------------------- -/

/-- `MerkleProof` from `merkle.py`: chunk index (a Python `int`, so modelled
as `Int` to keep the `chunk_index < 0` guard meaningful), the 32-byte leaf
hash, and the ordered sibling list. -/
structure MerkleProof where
  chunk_index : Int
  chunk_hash : Bytes
  proof_hashes : List Bytes
deriving DecidableEq

/-- The folding loop inside `MerkleProof.verify`: hash `(current, sibling)`
when the current index is even and `(sibling, current)` when it is odd,
halving the index at each step.  `H` is `MerkleTree.hash_pair`
(BLAKE2b-256 of the concatenation), abstracted as a parameter. -/
def proofFold (H : Bytes → Bytes → Bytes) (h : Bytes) (i : Nat) :
    List Bytes → Bytes
  | [] => h
  | s :: rest => proofFold H (if i % 2 = 0 then H h s else H s h) (i / 2) rest

/-- `MerkleProof.verify` from `merkle.py`: rejects a root or leaf hash that
is not 32 bytes, a negative index, or any sibling that is not 32 bytes, and
otherwise compares the fold of the leaf hash up the sibling list with the
root.  (In the source the index stays a Python `int`; past the negativity
guard the parity/halving arithmetic agrees with `Nat` arithmetic on
`toNat`.) -/
def MerkleProof.verify (H : Bytes → Bytes → Bytes) (p : MerkleProof)
    (root_hash : Bytes) : Bool :=
  if root_hash.length ≠ 32 then false
  else if p.chunk_hash.length ≠ 32 then false
  else if p.chunk_index < 0 then false
  else if p.proof_hashes.any (fun s => decide (s.length ≠ 32)) then false
  else decide (proofFold H p.chunk_hash p.chunk_index.toNat p.proof_hashes = root_hash)

/-- One pass of the level-building loop in `MerkleTree.build_tree`: adjacent
nodes are paired; an odd trailing node is paired with itself. -/
def buildNextLevel (H : Bytes → Bytes → Bytes) : List Bytes → List Bytes
  | [] => []
  | [x] => [H x x]
  | x :: y :: rest => H x y :: buildNextLevel H rest

theorem buildNextLevel_length (H : Bytes → Bytes → Bytes) :
    ∀ l : List Bytes, (buildNextLevel H l).length = (l.length + 1) / 2
  | [] => rfl
  | [_] => by simp [buildNextLevel]
  | _ :: _ :: rest => by
      simp [buildNextLevel, buildNextLevel_length H rest]
      omega

/-- `MerkleTree.build_tree` from `merkle.py`: repeatedly collapse the level
until one node remains; the empty chunk list raises `TransferError`
(modelled as `none`). -/
def build_tree (H : Bytes → Bytes → Bytes) (l : List Bytes) : Option Bytes :=
  match l with
  | [] => none
  | [x] => some x
  | x :: y :: rest => build_tree H (buildNextLevel H (x :: y :: rest))
termination_by l.length
decreasing_by
  simp [buildNextLevel_length]
  omega

/-- The sibling-collection loop of `MerkleTree.generate_proof`: at each level
with at least two nodes, take the node at `i XOR 1` (or the node itself when
the sibling index falls off the end), then halve the index and move to the
next level.  The iteration over `self._tree_levels[:-1]` visits exactly the
levels of length ≥ 2. -/
def generateProofHashes (H : Bytes → Bytes → Bytes) (l : List Bytes)
    (i : Nat) : List Bytes :=
  match l with
  | [] => []
  | [_] => []
  | x :: y :: rest =>
      (if i % 2 = 0 then
        if i + 1 < (x :: y :: rest).length then (x :: y :: rest).getD (i + 1) []
        else (x :: y :: rest).getD i []
      else (x :: y :: rest).getD (i - 1) [])
      :: generateProofHashes H (buildNextLevel H (x :: y :: rest)) (i / 2)
termination_by l.length
decreasing_by
  simp [buildNextLevel_length]
  omega

/-- `MerkleTree.generate_proof` from `merkle.py`: out-of-range indices raise
`TransferError` (modelled as `none`); otherwise the proof carries the chunk
hash at `i` and the collected sibling list. -/
def generate_proof (H : Bytes → Bytes → Bytes) (chunk_hashes : List Bytes)
    (i : Nat) : Option MerkleProof :=
  if i < chunk_hashes.length then
    some ⟨(i : Int), chunk_hashes.getD i [], generateProofHashes H chunk_hashes i⟩
  else none

/- Structural lemmas about the Merkle embedding. -/

theorem buildNextLevel_getD (H : Bytes → Bytes → Bytes) :
    ∀ (l : List Bytes) (j : Nat), 2 * j < l.length →
      (buildNextLevel H l).getD j [] =
        H (l.getD (2 * j) [])
          (if 2 * j + 1 < l.length then l.getD (2 * j + 1) [] else l.getD (2 * j) [])
  | [], j, h => by simp at h
  | [x], j, h => by
      have hj : j = 0 := by simp at h; omega
      subst hj
      simp [buildNextLevel]
  | x :: y :: rest, 0, h => by
      simp [buildNextLevel]
  | x :: y :: rest, j + 1, h => by
      have hlt : 2 * j < rest.length := by
        simp at h
        omega
      have ih := buildNextLevel_getD H rest j hlt
      have key : (buildNextLevel H (x :: y :: rest)).getD (j + 1) []
          = (buildNextLevel H rest).getD j [] := by
        simp [buildNextLevel]
      rw [key, ih]
      have e1 : (x :: y :: rest).getD (2 * (j + 1)) [] = rest.getD (2 * j) [] := by
        have he : 2 * (j + 1) = 2 * j + 2 := by ring
        rw [he]
        simp [List.getD_cons_succ]
      have e2 : (x :: y :: rest).getD (2 * (j + 1) + 1) [] = rest.getD (2 * j + 1) [] := by
        have he : 2 * (j + 1) + 1 = (2 * j + 1) + 2 := by ring
        rw [he]
        simp [List.getD_cons_succ]
      have e3 : (2 * (j + 1) + 1 < (x :: y :: rest).length) ↔ (2 * j + 1 < rest.length) := by
        simp
        omega
      by_cases hc : 2 * j + 1 < rest.length
      · rw [if_pos hc, if_pos (e3.mpr hc), e1, e2]
      · rw [if_neg hc, if_neg (fun hh => hc (e3.mp hh)), e1]

theorem buildNextLevel_all32 (H : Bytes → Bytes → Bytes)
    (hH : ∀ a b, (H a b).length = 32) :
    ∀ l : List Bytes, ∀ z ∈ buildNextLevel H l, z.length = 32
  | [] => by simp [buildNextLevel]
  | [x] => by simp [buildNextLevel, hH]
  | x :: y :: rest => by
      intro z hz
      simp only [buildNextLevel, List.mem_cons] at hz
      rcases hz with hz | hz
      · simpa [hz] using hH x y
      · exact buildNextLevel_all32 H hH rest z hz

theorem build_tree_isSome (H : Bytes → Bytes → Bytes) :
    ∀ l : List Bytes, l ≠ [] → (build_tree H l).isSome
  | [], h => absurd rfl h
  | [x], _ => by simp [build_tree]
  | x :: y :: rest, _ => by
      rw [build_tree]
      have hlen : (buildNextLevel H (x :: y :: rest)).length = (rest.length + 3) / 2 := by
        simp [buildNextLevel_length]
      have hne : buildNextLevel H (x :: y :: rest) ≠ [] := by
        intro hcon
        rw [hcon] at hlen
        simp at hlen
        omega
      exact build_tree_isSome H (buildNextLevel H (x :: y :: rest)) hne
termination_by l => l.length
decreasing_by
  simp [buildNextLevel_length]
  omega

theorem build_tree_all32 (H : Bytes → Bytes → Bytes)
    (hH : ∀ a b, (H a b).length = 32) :
    ∀ (l : List Bytes) (r : Bytes), (∀ z ∈ l, z.length = 32) →
      build_tree H l = some r → r.length = 32
  | [], r, _, hr => by simp [build_tree] at hr
  | [x], r, hall, hr => by
      simp [build_tree] at hr
      exact hr ▸ hall x (by simp)
  | x :: y :: rest, r, hall, hr => by
      rw [build_tree] at hr
      exact build_tree_all32 H hH (buildNextLevel H (x :: y :: rest)) r
        (buildNextLevel_all32 H hH _) hr
termination_by l => l.length
decreasing_by
  simp [buildNextLevel_length]
  omega

/-- Folding the leaf at index `i` up the generated sibling list recomputes
the root: the heart of claims C1 and C2. -/
theorem proofFold_generate_eq_root (H : Bytes → Bytes → Bytes) :
    ∀ (l : List Bytes) (i : Nat), i < l.length →
      build_tree H l = some (proofFold H (l.getD i []) i (generateProofHashes H l i))
  | [], i, h => by simp at h
  | [x], i, h => by
      have hi : i = 0 := by simpa using Nat.lt_one_iff.mp (by simpa using h)
      subst hi
      simp [build_tree, generateProofHashes, proofFold]
  | x :: y :: rest, i, h => by
      have hlen : (x :: y :: rest).length = rest.length + 2 := by simp
      have hnext_len : (buildNextLevel H (x :: y :: rest)).length
          = ((x :: y :: rest).length + 1) / 2 := buildNextLevel_length H _
      have hi2 : i / 2 < (buildNextLevel H (x :: y :: rest)).length := by
        rw [hnext_len, hlen]
        rw [hlen] at h
        omega
      have ih := proofFold_generate_eq_root H (buildNextLevel H (x :: y :: rest)) (i / 2) hi2
      rw [build_tree, generateProofHashes, ih]
      congr 1
      rw [proofFold]
      congr 1
      by_cases hpar : i % 2 = 0
      · have h2i : 2 * (i / 2) = i := by omega
        have hbn := buildNextLevel_getD H (x :: y :: rest) (i / 2) (by rw [h2i]; exact h)
        rw [hbn, h2i]
        simp [hpar]
      · have h2i1 : 2 * (i / 2) + 1 = i := by omega
        have h2i : 2 * (i / 2) = i - 1 := by omega
        have hbn := buildNextLevel_getD H (x :: y :: rest) (i / 2)
          (by rw [hlen]; rw [hlen] at h; omega)
        rw [if_pos (by rw [h2i1]; exact h)] at hbn
        rw [hbn, h2i1, h2i]
        simp [hpar]
termination_by l => l.length
decreasing_by
  simp [buildNextLevel_length]
  omega

theorem generateProofHashes_all32 (H : Bytes → Bytes → Bytes)
    (hH : ∀ a b, (H a b).length = 32) :
    ∀ (l : List Bytes) (i : Nat), (∀ z ∈ l, z.length = 32) → i < l.length →
      ∀ z ∈ generateProofHashes H l i, z.length = 32
  | [], i, _, hi => by simp at hi
  | [x], i, _, _ => by simp [generateProofHashes]
  | x :: y :: rest, i, hall, hi => by
      intro z hz
      rw [generateProofHashes] at hz
      simp only [List.mem_cons] at hz
      rcases hz with hz | hz
      · subst hz
        have hmem : ∀ k, k < (x :: y :: rest).length →
            ((x :: y :: rest).getD k []).length = 32 := by
          intro k hk
          rw [List.getD_eq_getElem _ _ hk]
          exact hall _ (List.getElem_mem hk)
        by_cases hpar : i % 2 = 0
        · rw [if_pos hpar]
          by_cases hc : i + 1 < (x :: y :: rest).length
          · rw [if_pos hc]
            exact hmem _ hc
          · rw [if_neg hc]
            exact hmem _ hi
        · rw [if_neg hpar]
          exact hmem _ (by omega)
      · have hlen : (x :: y :: rest).length = rest.length + 2 := by simp
        have hnext_len : (buildNextLevel H (x :: y :: rest)).length
            = ((x :: y :: rest).length + 1) / 2 := buildNextLevel_length H _
        have hi2 : i / 2 < (buildNextLevel H (x :: y :: rest)).length := by
          rw [hnext_len, hlen]
          rw [hlen] at hi
          omega
        exact generateProofHashes_all32 H hH (buildNextLevel H (x :: y :: rest)) (i / 2)
          (buildNextLevel_all32 H hH _) hi2 z hz
termination_by l => l.length
decreasing_by
  simp [buildNextLevel_length]
  omega

theorem proofFold_length (H : Bytes → Bytes → Bytes)
    (hH : ∀ a b, (H a b).length = 32) :
    ∀ (ps : List Bytes) (h : Bytes) (i : Nat), h.length = 32 →
      (proofFold H h i ps).length = 32
  | [], h, i, hh => by simpa [proofFold] using hh
  | s :: rest, h, i, hh => by
      rw [proofFold]
      exact proofFold_length H hH rest _ (i / 2) (by by_cases hp : i % 2 = 0 <;> simp [hp, hH])

/-- Unfolding of `MerkleProof.verify` into its conditions. -/
theorem MerkleProof.verify_eq_true_iff (H : Bytes → Bytes → Bytes)
    (p : MerkleProof) (root : Bytes) :
    p.verify H root = true ↔
      root.length = 32 ∧ p.chunk_hash.length = 32 ∧ ¬ p.chunk_index < 0 ∧
      (∀ s ∈ p.proof_hashes, s.length = 32) ∧
      proofFold H p.chunk_hash p.chunk_index.toNat p.proof_hashes = root := by
  unfold MerkleProof.verify
  split_ifs with h1 h2 h3 h4
  · simp only [Bool.false_eq_true, false_iff]
    rintro ⟨ha, _⟩
    exact h1 ha
  · simp only [Bool.false_eq_true, false_iff]
    rintro ⟨_, hb, _⟩
    exact h2 hb
  · simp only [Bool.false_eq_true, false_iff]
    rintro ⟨_, _, hcx, _⟩
    exact hcx h3
  · simp only [Bool.false_eq_true, false_iff]
    rintro ⟨_, _, _, hd, _⟩
    rw [List.any_eq_true] at h4
    obtain ⟨s, hs, hdec⟩ := h4
    exact (of_decide_eq_true hdec) (hd s hs)
  · rw [decide_eq_true_eq]
    constructor
    · intro h5
      refine ⟨not_not.mp (by simpa using h1), not_not.mp (by simpa using h2), h3, ?_, h5⟩
      intro s hs
      by_contra hcon
      exact h4 (List.any_eq_true.mpr ⟨s, hs, by simpa using hcon⟩)
    · rintro ⟨_, _, _, _, h5⟩
      exact h5

/- ----------------------------------------------------------------------
   Claims C1 and C2 (src/beenet/transfer/merkle.py)
   ---------------------------------------------------------------------- -/

/-- C1: for every non-empty list of 32-byte chunk hashes and every index
`i` in `[0, n)`, the proof returned by `MerkleTree.generate_proof(i)`
verifies against the root returned by `build_tree`, and
`MerkleProof.verify(R)` returns true exactly when folding the leaf hash up
the sibling list (hashing `current||sibling` for an even current index and
`sibling||current` for an odd one, halving the index at each step) yields
`R`.  The BLAKE2b-256 pair hash of the source (`MerkleTree.hash_pair`, an
external `hashlib` primitive) is abstracted as any function `H` with
32-byte output. -/
theorem c1_generate_proof_verify_iff_fold
    (H : Bytes → Bytes → Bytes) (hH : ∀ a b, (H a b).length = 32)
    (chunk_hashes : List Bytes) (hall : ∀ z ∈ chunk_hashes, z.length = 32)
    (i : Nat) (hi : i < chunk_hashes.length) :
    ∃ p root, generate_proof H chunk_hashes i = some p ∧
      build_tree H chunk_hashes = some root ∧
      p.verify H root = true ∧
      ∀ R : Bytes, p.verify H R = true ↔
        proofFold H p.chunk_hash p.chunk_index.toNat p.proof_hashes = R := by
  have hch : (chunk_hashes.getD i []).length = 32 := by
    rw [List.getD_eq_getElem _ _ hi]
    exact hall _ (List.getElem_mem hi)
  have hsib := generateProofHashes_all32 H hH chunk_hashes i hall hi
  refine ⟨⟨(i : Int), chunk_hashes.getD i [], generateProofHashes H chunk_hashes i⟩,
    proofFold H (chunk_hashes.getD i []) i (generateProofHashes H chunk_hashes i),
    ?_, ?_, ?_, ?_⟩
  · simp [generate_proof, hi]
  · exact proofFold_generate_eq_root H chunk_hashes i hi
  · rw [MerkleProof.verify_eq_true_iff]
    refine ⟨proofFold_length H hH _ _ _ hch, hch, by simp, hsib, by simp⟩
  · intro R
    rw [MerkleProof.verify_eq_true_iff]
    constructor
    · rintro ⟨_, _, _, _, h5⟩
      exact h5
    · intro hfold
      have hRlen : R.length = 32 := by
        rw [← hfold]
        exact proofFold_length H hH _ _ _ (by simpa using hch)
      exact ⟨hRlen, hch, by simp, hsib, hfold⟩

/-- Witness for C1 at a concrete two-leaf input (with a concrete stand-in
for the pair hash). -/
theorem c1_generate_proof_verify_iff_fold_witness :
    (∀ a b : Bytes,
      (((fun _ _ => List.replicate 32 0) : Bytes → Bytes → Bytes) a b).length = 32) ∧
    (∀ z ∈ [List.replicate 32 1, List.replicate 32 2], z.length = 32) ∧
    0 < [List.replicate 32 1, List.replicate 32 2].length ∧
    (∃ p root,
      generate_proof (fun _ _ => List.replicate 32 0)
        [List.replicate 32 1, List.replicate 32 2] 0 = some p ∧
      build_tree (fun _ _ => List.replicate 32 0)
        [List.replicate 32 1, List.replicate 32 2] = some root ∧
      p.verify (fun _ _ => List.replicate 32 0) root = true ∧
      ∀ R : Bytes, p.verify (fun _ _ => List.replicate 32 0) R = true ↔
        proofFold (fun _ _ => List.replicate 32 0) p.chunk_hash
          p.chunk_index.toNat p.proof_hashes = R) :=
  ⟨fun _ _ => by simp, by decide, by decide,
    c1_generate_proof_verify_iff_fold (fun _ _ => List.replicate 32 0)
      (fun _ _ => by simp) [List.replicate 32 1, List.replicate 32 2]
      (by decide) 0 (by decide)⟩

/-- C2: `build_tree` (a pure function of the chunk hashes, hence
deterministic) pairs an odd trailing node with itself; for three leaves
`a`, `b`, `c` the root is `H(H(a||b)||H(c||c))`, the proof generated for
index 2 has exactly the two siblings `c` (leaf-level self pair) and
`H(a||b)`, and that proof verifies against the built root.  Instantiating
`a`, `b`, `c` with the BLAKE2b hashes of `"a"`, `"b"`, `"c"` gives the
literal scenario S2 of the spec. -/
theorem c2_odd_count_self_pair
    (H : Bytes → Bytes → Bytes) (hH : ∀ a b, (H a b).length = 32)
    (a b c : Bytes) (ha : a.length = 32) (hb : b.length = 32) (hc : c.length = 32) :
    build_tree H [a, b, c] = some (H (H a b) (H c c)) ∧
    generate_proof H [a, b, c] 2 = some ⟨2, c, [c, H a b]⟩ ∧
    MerkleProof.verify H ⟨2, c, [c, H a b]⟩ (H (H a b) (H c c)) = true := by
  refine ⟨?_, ?_, ?_⟩
  · simp [build_tree, buildNextLevel]
  · simp [generate_proof, generateProofHashes, buildNextLevel]
  · rw [MerkleProof.verify_eq_true_iff]
    refine ⟨hH _ _, hc, by simp, ?_, ?_⟩
    · intro s hs
      simp only [List.mem_cons, List.not_mem_nil, or_false] at hs
      rcases hs with hs | hs
      · rw [hs]; exact hc
      · rw [hs]; exact hH _ _
    · simp [proofFold]

/-- Witness for C2 at concrete 32-byte leaves. -/
theorem c2_odd_count_self_pair_witness :
    (∀ x y : Bytes,
      (((fun _ _ => List.replicate 32 9) : Bytes → Bytes → Bytes) x y).length = 32) ∧
    (List.replicate 32 1 : Bytes).length = 32 ∧
    (List.replicate 32 2 : Bytes).length = 32 ∧
    (List.replicate 32 3 : Bytes).length = 32 ∧
    (build_tree (fun _ _ => List.replicate 32 9)
        [List.replicate 32 1, List.replicate 32 2, List.replicate 32 3]
      = some ((fun _ _ => List.replicate 32 9)
          ((fun _ _ => List.replicate 32 9) (List.replicate 32 1) (List.replicate 32 2))
          ((fun _ _ => List.replicate 32 9) (List.replicate 32 3) (List.replicate 32 3))) ∧
     generate_proof (fun _ _ => List.replicate 32 9)
        [List.replicate 32 1, List.replicate 32 2, List.replicate 32 3] 2
      = some ⟨2, List.replicate 32 3,
          [List.replicate 32 3,
           (fun _ _ => List.replicate 32 9) (List.replicate 32 1) (List.replicate 32 2)]⟩ ∧
     MerkleProof.verify (fun _ _ => List.replicate 32 9)
        ⟨2, List.replicate 32 3,
         [List.replicate 32 3,
          (fun _ _ => List.replicate 32 9) (List.replicate 32 1) (List.replicate 32 2)]⟩
        ((fun _ _ => List.replicate 32 9)
          ((fun _ _ => List.replicate 32 9) (List.replicate 32 1) (List.replicate 32 2))
          ((fun _ _ => List.replicate 32 9) (List.replicate 32 3) (List.replicate 32 3)))
      = true) :=
  ⟨fun _ _ => by simp, by decide, by decide, by decide,
    c2_odd_count_self_pair (fun _ _ => List.replicate 32 9) (fun _ _ => by simp)
      (List.replicate 32 1) (List.replicate 32 2) (List.replicate 32 3)
      (by decide) (by decide) (by decide)⟩

/- ----------------------------------------------------------------------
   src/beenet/transfer/chunker.py
   ---------------------------------------------------------------------- -/

def DEFAULT_CHUNK_SIZE : Int := 16 * 1024

def MAX_CHUNK_SIZE : Int := 64 * 1024

def MIN_CHUNK_SIZE : Int := 4 * 1024

/-- `DataChunker.negotiate_chunk_size` from `chunker.py`: out-of-range
proposals (on either side) are replaced by the default, the minimum of the
two values is taken, and the result is clamped to
`[MIN_CHUNK_SIZE, MAX_CHUNK_SIZE]`. -/
def negotiate_chunk_size (proposed_size peer_max_size : Int) : Int :=
  let p := if MIN_CHUNK_SIZE ≤ proposed_size ∧ proposed_size ≤ MAX_CHUNK_SIZE
           then proposed_size else DEFAULT_CHUNK_SIZE
  let m := if MIN_CHUNK_SIZE ≤ peer_max_size ∧ peer_max_size ≤ MAX_CHUNK_SIZE
           then peer_max_size else DEFAULT_CHUNK_SIZE
  let agreed := min p m
  if agreed < MIN_CHUNK_SIZE then MIN_CHUNK_SIZE
  else if agreed > MAX_CHUNK_SIZE then MAX_CHUNK_SIZE
  else agreed

/-- `DataChunker.calculate_chunk_count`: ceiling division, written with
Python floor division (`Int.fdiv`). -/
def calculate_chunk_count (data_size chunk_size : Int) : Int :=
  Int.fdiv (data_size + chunk_size - 1) chunk_size

/-- Chunking loop of `DataChunker.chunk_file` for a positive chunk size
`szPred + 1`: repeatedly read a chunk until the file is exhausted. -/
def chunksPos (szPred : Nat) (data : Bytes) : List Bytes :=
  if h : data = [] then []
  else data.take (szPred + 1) :: chunksPos szPred (data.drop (szPred + 1))
termination_by data.length
decreasing_by
  have hlen : 0 < data.length := List.length_pos.mpr h
  simp
  omega

/-- `DataChunker.chunk_file` over in-memory contents: `f.read(n)` with
`n > 0` reads successive chunks; `n = 0` reads nothing (no chunks);
`n < 0` reads the whole remainder at once. -/
def chunk_file (chunk_size : Int) (data : Bytes) : List Bytes :=
  if chunk_size = 0 then []
  else if chunk_size < 0 then (if data = [] then [] else [data])
  else chunksPos (chunk_size.toNat - 1) data

/- ----------------------------------------------------------------------
   src/beenet/transfer/stream.py
   ---------------------------------------------------------------------- -/

/-- `TransferState` from `stream.py`.  `completed_chunks` is a Python
`set[int]`, modelled as `Finset Int`; `total_chunks` stays a Python `int`
(`Int`), since `resume_transfer` can load arbitrary integers. -/
structure TransferState where
  transfer_id : String
  total_chunks : Int
  completed_chunks : Finset Int
  merkle_root : Option Bytes
  chunk_size : Int
deriving DecidableEq

/-- `TransferState.is_complete`: `len(completed_chunks) == total_chunks`. -/
def TransferState.is_complete (ts : TransferState) : Bool :=
  (ts.completed_chunks.card : Int) == ts.total_chunks

/-- `TransferStream` from `stream.py`: the chunker's negotiated size, the
optional transfer state, the sender-side Merkle leaf hashes
(`self.merkle_tree`), and the receive-file contents (`some` exactly when
`self._file_path` is set; disk I/O is modelled as in-memory contents). -/
structure TransferStream where
  transfer_id : String
  chunker_chunk_size : Int
  state : Option TransferState
  merkle_tree : Option (List Bytes)
  file : Option Bytes
deriving DecidableEq

/-- Writing `data` at byte offset `off` of a file (Python `seek`/`write`
semantics: short files are zero-extended to the offset). -/
def writeFileAt (file : Bytes) (off : Nat) (data : Bytes) : Bytes :=
  let padded := file ++ List.replicate (off - file.length) 0
  padded.take off ++ data ++ padded.drop (off + data.length)

/-- `TransferStream.start_receive`: validates the 32-byte root and positive
chunk count, installs a fresh state with an empty completed set, and
pre-sizes the file with zero bytes when it does not already exist. -/
def start_receive (st : TransferStream) (expected_root : Bytes)
    (total_chunks : Int) (existing_file : Option Bytes) :
    Except String TransferStream :=
  if expected_root.length ≠ 32 then .error "Invalid Merkle root hash"
  else if total_chunks ≤ 0 then .error "Invalid chunk count"
  else .ok { st with
    state := some ⟨st.transfer_id, total_chunks, ∅, some expected_root,
      st.chunker_chunk_size⟩,
    file := some (match existing_file with
      | some f => f
      | none => List.replicate (total_chunks * st.chunker_chunk_size).toNat 0) }

/-- `TransferStream.start_send` over in-memory file contents (`H` is the
pair hash, `hc` is `MerkleTree.hash_chunk`, both external BLAKE2b
primitives abstracted as parameters): hashes every chunk, builds the tree
and installs a fresh state whose completed set is empty. -/
def start_send (H : Bytes → Bytes → Bytes) (hc : Bytes → Bytes)
    (st : TransferStream) (file_data : Bytes) : Except String TransferStream :=
  let total := calculate_chunk_count file_data.length st.chunker_chunk_size
  let hashes := (chunk_file st.chunker_chunk_size file_data).map hc
  match build_tree H hashes with
  | none => .error "Cannot build tree with no chunk hashes"
  | some root => .ok { st with
      state := some ⟨st.transfer_id, total, ∅, some root, st.chunker_chunk_size⟩,
      merkle_tree := some hashes }

/-- `MerkleTree.verify_chunk` from `merkle.py`: index consistency, leaf
hash recomputation, then proof verification against the (lazily built)
root; building the tree from no hashes raises, which the surrounding
`except` turns into `False`. -/
def MerkleTree.verify_chunk (H : Bytes → Bytes → Bytes) (hc : Bytes → Bytes)
    (chunk_hashes : List Bytes) (chunk_data : Bytes) (chunk_index : Int)
    (proof : MerkleProof) : Bool :=
  if chunk_index ≠ proof.chunk_index then false
  else if hc chunk_data ≠ proof.chunk_hash then false
  else match build_tree H chunk_hashes with
    | none => false
    | some root => proof.verify H root

/-- `TransferStream.send_chunk`: raises (modelled as `.error`) unless the
state and the sender Merkle tree exist, the index is in range and
`verify_chunk` succeeds; on success the index joins the completed set. -/
def send_chunk (H : Bytes → Bytes → Bytes) (hc : Bytes → Bytes)
    (st : TransferStream) (chunk_index : Int) (chunk_data : Bytes)
    (proof : MerkleProof) : Except String TransferStream :=
  match st.state with
  | none => .error "Transfer not started"
  | some ts =>
    if chunk_index < 0 ∨ chunk_index ≥ ts.total_chunks then
      .error "Invalid chunk index"
    else match st.merkle_tree with
      | none => .error "Merkle tree not initialized"
      | some hashes =>
        if MerkleTree.verify_chunk H hc hashes chunk_data chunk_index proof
        then
          .ok { st with
            state :=
              some { ts with completed_chunks := insert chunk_index ts.completed_chunks } }
        else .error "Invalid chunk or proof"

/-- `TransferStream.receive_chunk`: returns `false` without state change
when there is no state, the index is out of range, the stored root is
absent (or empty, Python falsiness), the proof fails to verify against the
stored root, the recomputed BLAKE2b leaf hash differs from the proof's
claimed hash, or the file write raises `OSError` (`write_ok = false`).
A duplicate index returns `true` without state change; otherwise the chunk
is written at `chunk_index * chunk_size` and the index joins the completed
set. -/
def receive_chunk (H : Bytes → Bytes → Bytes) (hc : Bytes → Bytes)
    (st : TransferStream) (chunk_index : Int) (chunk_data : Bytes)
    (proof : MerkleProof) (write_ok : Bool) : Bool × TransferStream :=
  match st.state with
  | none => (false, st)
  | some ts =>
    if chunk_index < 0 ∨ chunk_index ≥ ts.total_chunks then (false, st)
    else if chunk_index ∈ ts.completed_chunks then (true, st)
    else match ts.merkle_root with
      | none => (false, st)
      | some root =>
        if root = [] then (false, st)
        else if proof.verify H root = false then (false, st)
        else if hc chunk_data ≠ proof.chunk_hash then (false, st)
        else match st.file with
          | some f =>
            if write_ok then
              (true, { st with
                state := some { ts with completed_chunks := insert chunk_index ts.completed_chunks },
                file := some (writeFileAt f (chunk_index * ts.chunk_size).toNat chunk_data) })
            else (false, st)
          | none =>
            (true, { st with
              state := some { ts with completed_chunks := insert chunk_index ts.completed_chunks } })

/-- The parsed contents of a transfer state file, as read by
`resume_transfer` (`transfer_id` may be absent; `merkle_root` is the
decoded hex field, with the absent/empty cases both mapping to `none`). -/
structure StateFileData where
  transfer_id : Option String
  total_chunks : Int
  completed_chunks : List Int
  merkle_root : Option Bytes
  chunk_size : Int
deriving DecidableEq

/-- `TransferStream.resume_transfer`: rejects a mismatched transfer id or a
non-positive chunk count, then replaces the in-memory state with the
file's contents — the completed set is installed without any range
check — and propagates the persisted chunk size to the chunker. -/
def resume_transfer (st : TransferStream) (sf : StateFileData) :
    Except String TransferStream :=
  if sf.transfer_id ≠ some st.transfer_id then .error "Transfer ID mismatch"
  else if sf.total_chunks ≤ 0 then .error "Invalid total chunks in state file"
  else .ok { st with
    state := some ⟨st.transfer_id, sf.total_chunks, sf.completed_chunks.toFinset,
      (match sf.merkle_root with
        | some r => if r = [] then none else some r
        | none => none),
      sf.chunk_size⟩,
    chunker_chunk_size := sf.chunk_size }

/-- `TransferStream.verify_complete_file` over in-memory contents: fails
when there is no state or stored root, or when the transfer is not
complete (`len(completed) == total_chunks` fails) — all before touching
the file — then re-hashes the file's chunks, requires the chunk count to
match, rebuilds the tree and compares roots. -/
def verify_complete_file (H : Bytes → Bytes → Bytes) (hc : Bytes → Bytes)
    (st : TransferStream) (file_data : Bytes) : Bool :=
  match st.state with
  | none => false
  | some ts =>
    match ts.merkle_root with
    | none => false
    | some root =>
      if root = [] then false
      else if ts.is_complete = false then false
      else
        let hashes := (chunk_file st.chunker_chunk_size file_data).map hc
        if (hashes.length : Int) ≠ ts.total_chunks then false
        else match build_tree H hashes with
          | none => false
          | some computed => computed == root

/-- The invariant of claim C3: every completed index lies in
`{0, …, total_chunks − 1}` (vacuous when no transfer state exists). -/
def streamInv (st : TransferStream) : Prop :=
  match st.state with
  | none => True
  | some ts => ∀ j ∈ ts.completed_chunks, 0 ≤ j ∧ j < ts.total_chunks

/- ----------------------------------------------------------------------
   Claims C3, C8, C10 (src/beenet/transfer/stream.py)
   ---------------------------------------------------------------------- -/

/-- Every `receive_chunk` call either leaves the stream unchanged or passed
every guard: in-range fresh index, stored non-empty root, verified proof,
matching leaf hash; then exactly that index joined the completed set. -/
theorem receive_chunk_cases (H : Bytes → Bytes → Bytes) (hc : Bytes → Bytes)
    (st : TransferStream) (i : Int) (data : Bytes) (p : MerkleProof) (w : Bool) :
    (receive_chunk H hc st i data p w).2 = st ∨
    ∃ ts root, st.state = some ts ∧ 0 ≤ i ∧ i < ts.total_chunks ∧
      i ∉ ts.completed_chunks ∧ ts.merkle_root = some root ∧ root ≠ [] ∧
      p.verify H root = true ∧ hc data = p.chunk_hash ∧
      (receive_chunk H hc st i data p w).1 = true ∧
      (receive_chunk H hc st i data p w).2.state =
        some { ts with completed_chunks := insert i ts.completed_chunks } := by
  rcases hst : st.state with _ | ts
  · left
    simp [receive_chunk, hst]
  · simp only [receive_chunk, hst]
    by_cases h1 : i < 0 ∨ i ≥ ts.total_chunks
    · left
      simp [h1]
    · rw [if_neg h1]
      by_cases h2 : i ∈ ts.completed_chunks
      · left
        simp [h2]
      · rw [if_neg h2]
        rcases hroot : ts.merkle_root with _ | root
        · left
          rfl
        · dsimp only
          by_cases h3 : root = []
          · left
            simp [h3]
          · rw [if_neg h3]
            by_cases h4 : p.verify H root = false
            · left
              simp [h4]
            · rw [if_neg h4]
              by_cases h5 : hc data = p.chunk_hash
              · rw [if_neg (by simpa using h5)]
                have hver : p.verify H root = true := by
                  cases hb : p.verify H root
                  · exact absurd hb h4
                  · rfl
                rcases hfile : st.file with _ | f
                · right
                  refine ⟨ts, root, ?_, ?_, ?_, ?_, ?_, ?_, ?_, ?_, ?_, ?_⟩
                  all_goals first
                    | exact h2
                    | exact h3
                    | exact hver
                    | exact h5
                    | omega
                    | simp [hst, hroot]
                · cases w with
                  | false => left; simp
                  | true =>
                    right
                    refine ⟨ts, root, ?_, ?_, ?_, ?_, ?_, ?_, ?_, ?_, ?_, ?_⟩
                    all_goals first
                      | exact h2
                      | exact h3
                      | exact hver
                      | exact h5
                      | omega
                      | simp [hst, hroot]
              · left
                rw [if_pos (by simpa using h5)]

theorem streamInv_some (st : TransferStream) (ts : TransferState)
    (hst : st.state = some ts) :
    streamInv st ↔ ∀ j ∈ ts.completed_chunks, 0 ≤ j ∧ j < ts.total_chunks := by
  unfold streamInv
  rw [hst]

theorem streamInv_of_none (st : TransferStream) (hst : st.state = none) :
    streamInv st := by
  unfold streamInv
  rw [hst]
  trivial

/-- C3 (amended): every state-mutating operation of `TransferStream`
except `resume_transfer` preserves the invariant
`completed_chunks ⊆ {0, …, total_chunks−1}` (`resume_transfer` installs
the state file's completed list without any range check — see the
counterexample); `receive_chunk` adds an index to the completed set only
when the Merkle proof verifies against the stored expected root and the
BLAKE2b hash of the chunk bytes equals the proof's claimed leaf hash, and
on any verification failure it leaves the stream unchanged. -/
theorem c3_invariant_preservation_and_gating
    (H : Bytes → Bytes → Bytes) (hc : Bytes → Bytes) (st : TransferStream)
    (i : Int) (data : Bytes) (p : MerkleProof) (w : Bool) :
    (streamInv st → streamInv (receive_chunk H hc st i data p w).2) ∧
    (∀ s2, send_chunk H hc st i data p = .ok s2 → streamInv st → streamInv s2) ∧
    (∀ root total f s2, start_receive st root total f = .ok s2 → streamInv s2) ∧
    (∀ fdata s2, start_send H hc st fdata = .ok s2 → streamInv s2) ∧
    (∀ ts, st.state = some ts → i ∉ ts.completed_chunks →
      (receive_chunk H hc st i data p w).2 ≠ st →
      ∃ root, ts.merkle_root = some root ∧ p.verify H root = true ∧
        hc data = p.chunk_hash) ∧
    (∀ ts root, st.state = some ts → ts.merkle_root = some root →
      (p.verify H root = false ∨ hc data ≠ p.chunk_hash) →
      (receive_chunk H hc st i data p w).2 = st) := by
  refine ⟨?_, ?_, ?_, ?_, ?_, ?_⟩
  · intro hinv
    rcases receive_chunk_cases H hc st i data p w with hsame |
      ⟨ts, root, hst, h0, hlt, hmem, hroot, hne, hv, hh, hb, hstate⟩
    · rw [hsame]
      exact hinv
    · rw [streamInv_some _ _ hstate]
      intro j hj
      rcases Finset.mem_insert.mp hj with rfl | hjmem
      · exact ⟨h0, hlt⟩
      · exact (streamInv_some st ts hst).mp hinv j hjmem
  · intro s2 hok hinv
    unfold send_chunk at hok
    rcases hst : st.state with _ | ts
    · rw [hst] at hok
      simp at hok
    · rw [hst] at hok
      dsimp only at hok
      by_cases h1 : i < 0 ∨ i ≥ ts.total_chunks
      · rw [if_pos h1] at hok
        simp at hok
      · rw [if_neg h1] at hok
        rcases hmt : st.merkle_tree with _ | hashes
        · rw [hmt] at hok
          simp at hok
        · rw [hmt] at hok
          dsimp only at hok
          by_cases hvc : MerkleTree.verify_chunk H hc hashes data i p = true
          · rw [if_pos hvc] at hok
            have hs2 : s2.state = some { ts with completed_chunks := insert i ts.completed_chunks } := by
              cases hok
              rfl
            rw [streamInv_some _ _ hs2]
            intro j hj
            rcases Finset.mem_insert.mp hj with rfl | hjmem
            · refine ⟨by omega, ?_⟩
              show j < ts.total_chunks
              omega
            · refine ⟨((streamInv_some st ts hst).mp hinv j hjmem).1, ?_⟩
              show j < ts.total_chunks
              exact ((streamInv_some st ts hst).mp hinv j hjmem).2
          · rw [if_neg hvc] at hok
            simp at hok
  · intro root total f s2 hok
    unfold start_receive at hok
    by_cases h1 : root.length ≠ 32
    · rw [if_pos h1] at hok
      simp at hok
    · rw [if_neg h1] at hok
      by_cases h2 : total ≤ 0
      · rw [if_pos h2] at hok
        simp at hok
      · rw [if_neg h2] at hok
        have hs2 : s2.state = some ⟨st.transfer_id, total, ∅, some root,
            st.chunker_chunk_size⟩ := by
          cases hok
          rfl
        rw [streamInv_some _ _ hs2]
        intro j hj
        simp at hj
  · intro fdata s2 hok
    simp only [start_send] at hok
    rcases hbt : build_tree H ((chunk_file st.chunker_chunk_size fdata).map hc)
      with _ | root
    · rw [hbt] at hok
      simp at hok
    · rw [hbt] at hok
      dsimp only at hok
      have hs2 : s2.state = some ⟨st.transfer_id,
          calculate_chunk_count fdata.length st.chunker_chunk_size, ∅, some root,
          st.chunker_chunk_size⟩ := by
        cases hok
        rfl
      rw [streamInv_some _ _ hs2]
      intro j hj
      simp at hj
  · intro ts hst hmem hneq
    rcases receive_chunk_cases H hc st i data p w with hsame |
      ⟨ts', root, hst', h0, hlt, hmem', hroot, hne, hv, hh, hb, hstate⟩
    · exact absurd hsame hneq
    · have hts : ts = ts' := by
        have := hst.symm.trans hst'
        injection this
      subst hts
      exact ⟨root, hroot, hv, hh⟩
  · intro ts root hst hroot hbad
    rcases receive_chunk_cases H hc st i data p w with hsame |
      ⟨ts', root', hst', h0, hlt, hmem', hroot', hne, hv, hh, hb, hstate⟩
    · exact hsame
    · exfalso
      have hts : ts = ts' := by
        have := hst.symm.trans hst'
        injection this
      subst hts
      have hr : root = root' := by
        have := hroot.symm.trans hroot'
        injection this
      subst hr
      rcases hbad with hbad | hbad
      · rw [hv] at hbad
        cases hbad
      · exact hbad hh

/- Concrete fixtures used by witnesses and counterexamples. -/

/-- Concrete stand-in for the abstract pair hash. -/
def dummyHash2 : Bytes → Bytes → Bytes := fun _ _ => List.replicate 32 0

/-- Concrete stand-in for the abstract chunk hash. -/
def dummyHash1 : Bytes → Bytes := fun _ => List.replicate 32 0

def zeros32 : Bytes := List.replicate 32 0

/-- A proof whose leaf hash matches `dummyHash1` of any chunk. -/
def proofOk : MerkleProof := ⟨0, zeros32, []⟩

/-- A proof with an invalid (empty) leaf hash: `verify` rejects it. -/
def proofBad : MerkleProof := ⟨0, [], []⟩

def freshStream : TransferStream := ⟨"t", 16384, none, none, none⟩

/-- The state `resume_transfer` builds from a file whose completed list
holds the out-of-range index 5 while `total_chunks = 1`. -/
def brokenState : TransferState := ⟨"t", 1, {5}, none, 16384⟩

def brokenStream : TransferStream := ⟨"t", 16384, some brokenState, none, none⟩

/-- C3 counterexample: the claim "every operation of TransferStream
preserves the invariant" fails — `resume_transfer`, starting from a
stream that satisfies the invariant, installs the state file's completed
set `{5}` with `total_chunks = 1` without any range check, producing a
state that violates it. -/
theorem c3_counterexample_resume_breaks_invariant :
    streamInv freshStream ∧
    (resume_transfer freshStream ⟨some "t", 1, [5], none, 16384⟩).toOption
      = some brokenStream ∧
    ¬ streamInv brokenStream := by
  refine ⟨streamInv_of_none _ rfl, by decide, ?_⟩
  intro h
  have h5 : (5 : Int) < 1 :=
    ((streamInv_some brokenStream brokenState rfl).mp h 5 (by decide)).2
  omega

def c3SendStream : TransferStream :=
  ⟨"t", 16384, some ⟨"t", 1, ∅, none, 16384⟩, some [zeros32], none⟩

def c3SendResult : TransferStream :=
  ⟨"t", 16384, some ⟨"t", 1, {0}, none, 16384⟩, some [zeros32], none⟩

def c3RecvResult : TransferStream :=
  ⟨"t", 16384, some ⟨"t", 1, ∅, some zeros32, 16384⟩, none, some []⟩

def c3Send4Stream : TransferStream := ⟨"t", 1, none, none, none⟩

def c3Send4Result : TransferStream :=
  ⟨"t", 1, some ⟨"t", 1, ∅, some zeros32, 1⟩, some [zeros32], none⟩

def c3Part5Stream : TransferStream :=
  ⟨"t", 16384, some ⟨"t", 1, ∅, some zeros32, 16384⟩, none, none⟩

/-- Witness for C3 at concrete inputs: one instance per conjunct, with
every hypothesis discharged. -/
theorem c3_invariant_preservation_and_gating_witness :
    (streamInv freshStream ∧
      streamInv (receive_chunk dummyHash2 dummyHash1 freshStream 0 [] proofOk true).2) ∧
    (send_chunk dummyHash2 dummyHash1 c3SendStream 0 [] proofOk = .ok c3SendResult ∧
      streamInv c3SendStream ∧ streamInv c3SendResult) ∧
    (start_receive freshStream zeros32 1 (some []) = .ok c3RecvResult ∧
      streamInv c3RecvResult) ∧
    (start_send dummyHash2 dummyHash1 c3Send4Stream [7] = .ok c3Send4Result ∧
      streamInv c3Send4Result) ∧
    (c3Part5Stream.state = some ⟨"t", 1, ∅, some zeros32, 16384⟩ ∧
      (0 : Int) ∉ (⟨"t", 1, ∅, some zeros32, 16384⟩ : TransferState).completed_chunks ∧
      (receive_chunk dummyHash2 dummyHash1 c3Part5Stream 0 [] proofOk true).2
        ≠ c3Part5Stream ∧
      (∃ root, (⟨"t", 1, ∅, some zeros32, 16384⟩ : TransferState).merkle_root = some root ∧
        proofOk.verify dummyHash2 root = true ∧ dummyHash1 [] = proofOk.chunk_hash)) ∧
    ((proofBad.verify dummyHash2 zeros32 = false ∨ dummyHash1 [] ≠ proofBad.chunk_hash) ∧
      (receive_chunk dummyHash2 dummyHash1 c3Part5Stream 0 [] proofBad true).2
        = c3Part5Stream) := by
  have hsend : send_chunk dummyHash2 dummyHash1 c3SendStream 0 [] proofOk
      = .ok c3SendResult := by
    simp [send_chunk, c3SendStream, c3SendResult, MerkleTree.verify_chunk, build_tree,
      MerkleProof.verify, proofFold, proofOk, dummyHash1, dummyHash2, zeros32]
  have hrecv : start_receive freshStream zeros32 1 (some []) = .ok c3RecvResult := by
    rfl
  have hsend4 : start_send dummyHash2 dummyHash1 c3Send4Stream [7] = .ok c3Send4Result := by
    simp [start_send, c3Send4Stream, c3Send4Result, build_tree, chunk_file, chunksPos,
      calculate_chunk_count, dummyHash1, dummyHash2, zeros32]
  refine ⟨⟨streamInv_of_none _ rfl,
      (c3_invariant_preservation_and_gating dummyHash2 dummyHash1 freshStream 0 [] proofOk
        true).1 (streamInv_of_none _ rfl)⟩,
    ⟨hsend, (streamInv_some _ _ rfl).mpr (by simp),
      (c3_invariant_preservation_and_gating dummyHash2 dummyHash1 c3SendStream 0 [] proofOk
        true).2.1 c3SendResult hsend ((streamInv_some _ _ rfl).mpr (by simp))⟩,
    ⟨hrecv, (c3_invariant_preservation_and_gating dummyHash2 dummyHash1 freshStream 0 []
        proofOk true).2.2.1 zeros32 1 (some []) c3RecvResult hrecv⟩,
    ⟨hsend4, (c3_invariant_preservation_and_gating dummyHash2 dummyHash1 c3Send4Stream 0 []
        proofOk true).2.2.2.1 [7] c3Send4Result hsend4⟩,
    ⟨rfl, by decide, by decide,
      (c3_invariant_preservation_and_gating dummyHash2 dummyHash1 c3Part5Stream 0 [] proofOk
        true).2.2.2.2.1 _ rfl (by decide) (by decide)⟩,
    ⟨Or.inl (by decide),
      (c3_invariant_preservation_and_gating dummyHash2 dummyHash1 c3Part5Stream 0 [] proofBad
        true).2.2.2.2.2 _ zeros32 rfl rfl (Or.inl (by decide))⟩⟩

/-- C8 (amended): for any transfer state and any index that is in range
and already in the completed set (in particular any index previously
accepted by `receive_chunk`), a second `receive_chunk` call returns
success and leaves the stream — state, file contents and all — unchanged. -/
theorem c8_receive_chunk_idempotent_in_range
    (H : Bytes → Bytes → Bytes) (hc : Bytes → Bytes) (st : TransferStream)
    (ts : TransferState) (i : Int) (data : Bytes) (p : MerkleProof) (w : Bool)
    (hst : st.state = some ts) (h0 : 0 ≤ i) (hlt : i < ts.total_chunks)
    (hmem : i ∈ ts.completed_chunks) :
    receive_chunk H hc st i data p w = (true, st) := by
  simp only [receive_chunk, hst]
  rw [if_neg (by omega : ¬(i < 0 ∨ i ≥ ts.total_chunks)), if_pos hmem]

/-- C8 counterexample: the claim as stated quantifies over any transfer
state and any index already in the completed set, but for the state that
`resume_transfer` builds from a file with completed list `[5]` and
`total_chunks = 1`, re-receiving index 5 returns failure (the range check
precedes the duplicate check), not success. -/
theorem c8_counterexample_duplicate_out_of_range :
    (resume_transfer freshStream ⟨some "t", 1, [5], none, 16384⟩).toOption
      = some brokenStream ∧
    brokenStream.state = some brokenState ∧
    (5 : Int) ∈ brokenState.completed_chunks ∧
    receive_chunk dummyHash2 dummyHash1 brokenStream 5 [] proofOk true
      = (false, brokenStream) := by
  refine ⟨by decide, rfl, by decide, by decide⟩

def dupStream : TransferStream :=
  ⟨"t", 16384, some ⟨"t", 1, {0}, none, 16384⟩, none, none⟩

/-- Witness for C8 at a concrete duplicate receive. -/
theorem c8_receive_chunk_idempotent_in_range_witness :
    dupStream.state = some ⟨"t", 1, {0}, none, 16384⟩ ∧
    (0 : Int) ≤ 0 ∧
    (0 : Int) < (⟨"t", 1, {0}, none, 16384⟩ : TransferState).total_chunks ∧
    (0 : Int) ∈ (⟨"t", 1, {0}, none, 16384⟩ : TransferState).completed_chunks ∧
    receive_chunk dummyHash2 dummyHash1 dupStream 0 [] proofOk true = (true, dupStream) :=
  ⟨rfl, by decide, by decide, by decide,
    c8_receive_chunk_idempotent_in_range dummyHash2 dummyHash1 dupStream _ 0 [] proofOk true
      rfl (by decide) (by decide) (by decide)⟩

/-- C10 (amended): `verify_complete_file` returns true only when the
in-memory state exists, holds a (non-empty) expected Merkle root, and
`is_complete` holds — which the source computes as
`len(completed_chunks) == total_chunks`, a cardinality test rather than
equality with `{0, …, total_chunks−1}` (see the counterexample); whenever
`is_complete` is false the result is false for every file contents, i.e.
without reading the file. -/
theorem c10_verify_complete_file_conditions
    (H : Bytes → Bytes → Bytes) (hc : Bytes → Bytes) (st : TransferStream)
    (fdata : Bytes) :
    (verify_complete_file H hc st fdata = true →
      ∃ ts root, st.state = some ts ∧ ts.merkle_root = some root ∧ root ≠ [] ∧
        ts.is_complete = true) ∧
    (∀ ts, st.state = some ts → ts.is_complete = false →
      verify_complete_file H hc st fdata = false) := by
  constructor
  · intro hv
    unfold verify_complete_file at hv
    rcases hst : st.state with _ | ts
    · rw [hst] at hv
      simp at hv
    · rw [hst] at hv
      dsimp only at hv
      rcases hroot : ts.merkle_root with _ | root
      · rw [hroot] at hv
        simp at hv
      · rw [hroot] at hv
        dsimp only at hv
        by_cases h3 : root = []
        · rw [if_pos h3] at hv
          simp at hv
        · rw [if_neg h3] at hv
          by_cases h4 : ts.is_complete = false
          · rw [if_pos h4] at hv
            simp at hv
          · have h4t : ts.is_complete = true := by
              cases hb : ts.is_complete
              · exact absurd hb h4
              · rfl
            refine ⟨ts, root, ?_, ?_, h3, h4t⟩
            all_goals first
              | exact hst
              | exact hroot
              | simp [hst, hroot]
  · intro ts hst hic
    unfold verify_complete_file
    rw [hst]
    dsimp only
    rcases hroot : ts.merkle_root with _ | root
    · rfl
    · dsimp only
      by_cases h3 : root = []
      · rw [if_pos h3]
      · rw [if_neg h3, if_pos hic]

/-- The state produced by resuming from a file with completed list `[5]`,
one total chunk, a stored root and chunk size 1. -/
def c10State : TransferState := ⟨"t", 1, {5}, some zeros32, 1⟩

def c10Stream : TransferStream := ⟨"t", 1, some c10State, none, none⟩

/-- C10 counterexample: the claim reads `is_complete` as "the completed
set equals `{0, …, total_chunks−1}`", but the code only compares
cardinalities: after resuming from a state file whose completed list is
`[5]` with `total_chunks = 1`, `verify_complete_file` returns true for a
file that reproduces the stored root even though the completed set is
`{5} ≠ {0}`. -/
theorem c10_counterexample_cardinality_only :
    (resume_transfer freshStream ⟨some "t", 1, [5], some zeros32, 1⟩).toOption
      = some c10Stream ∧
    verify_complete_file dummyHash2 dummyHash1 c10Stream [7] = true ∧
    (0 : Int) ∉ c10State.completed_chunks ∧ (5 : Int) ∈ c10State.completed_chunks := by
  refine ⟨by decide, ?_, by decide, by decide⟩
  simp [verify_complete_file, c10Stream, c10State, chunk_file, chunksPos, build_tree,
    TransferState.is_complete, dummyHash1, dummyHash2, zeros32]

/-- Witness for C10: a true `verify_complete_file` instance and a concrete
incomplete state on which the result is false for an arbitrary file. -/
theorem c10_verify_complete_file_conditions_witness :
    (verify_complete_file dummyHash2 dummyHash1 c10Stream [7] = true ∧
      (∃ ts root, c10Stream.state = some ts ∧ ts.merkle_root = some root ∧ root ≠ [] ∧
        ts.is_complete = true)) ∧
    (c3Part5Stream.state = some ⟨"t", 1, ∅, some zeros32, 16384⟩ ∧
      (⟨"t", 1, ∅, some zeros32, 16384⟩ : TransferState).is_complete = false ∧
      verify_complete_file dummyHash2 dummyHash1 c3Part5Stream [7] = false) := by
  have hv : verify_complete_file dummyHash2 dummyHash1 c10Stream [7] = true := by
    simp [verify_complete_file, c10Stream, c10State, chunk_file, chunksPos, build_tree,
      TransferState.is_complete, dummyHash1, dummyHash2, zeros32]
  refine ⟨⟨hv, (c10_verify_complete_file_conditions dummyHash2 dummyHash1 c10Stream [7]).1 hv⟩,
    ⟨rfl, by decide,
      (c10_verify_complete_file_conditions dummyHash2 dummyHash1 c3Part5Stream [7]).2 _
        rfl (by decide)⟩⟩

/- ----------------------------------------------------------------------
   Claim C7 (src/beenet/transfer/chunker.py)
   ---------------------------------------------------------------------- -/

/-- C7 counterexample: the claim's literal formula clamps with lower bound
`4096·4` (= 16 KiB), but for the valid proposal 4096 on both sides the
code returns 4096 (= 4 KiB, the real `MIN_CHUNK_SIZE`), not 16384. -/
theorem c7_counterexample_literal_lower_bound :
    negotiate_chunk_size 4096 4096 = 4096 ∧
    negotiate_chunk_size 4096 4096 ≠ min (1024 * 64) (max (4096 * 4) (min 4096 4096)) := by
  refine ⟨by decide, by decide⟩

/-- C7 (amended): `negotiate_chunk_size` returns
`clamp(min(p, m), 4·1024, 64·1024)` — lower bound 4 KiB = 4096, not the
claim's literal `4096·4` — where `p` (resp. `m`) is the given value when it
lies in `[4 KiB, 64 KiB]` and the default 16 KiB otherwise; in particular
the agreed size always lies in `[4 KiB, 64 KiB]`. -/
theorem c7_negotiate_chunk_size_clamp (proposed peer_max : Int) :
    negotiate_chunk_size proposed peer_max =
      min MAX_CHUNK_SIZE (max MIN_CHUNK_SIZE
        (min (if MIN_CHUNK_SIZE ≤ proposed ∧ proposed ≤ MAX_CHUNK_SIZE then proposed
              else DEFAULT_CHUNK_SIZE)
             (if MIN_CHUNK_SIZE ≤ peer_max ∧ peer_max ≤ MAX_CHUNK_SIZE then peer_max
              else DEFAULT_CHUNK_SIZE))) ∧
    MIN_CHUNK_SIZE ≤ negotiate_chunk_size proposed peer_max ∧
    negotiate_chunk_size proposed peer_max ≤ MAX_CHUNK_SIZE := by
  simp only [negotiate_chunk_size, MIN_CHUNK_SIZE, MAX_CHUNK_SIZE, DEFAULT_CHUNK_SIZE]
  split_ifs <;> refine ⟨?_, ?_, ?_⟩ <;> omega

/- ----------------------------------------------------------------------
   src/beenet/core/resilience.py
   ---------------------------------------------------------------------- -/

/-- `PeerState` enum from `resilience.py`. -/
inductive PeerStateE
  | UNKNOWN
  | CONNECTING
  | CONNECTED
  | DISCONNECTED
  | FAILED
  | BLACKLISTED
deriving DecidableEq

/-- `PeerScore` from `resilience.py`.  Python floats are modelled as `ℚ`
(every comparison the claims exercise is far from the rounding margin);
the field the source calls `uptime_ratio` is named `uptime_fraction`
here. -/
structure PeerScore where
  connection_success_rate : ℚ := 1
  average_latency : ℚ := 0
  transfer_success_rate : ℚ := 1
  uptime_fraction : ℚ := 1
  last_seen : ℚ := 0
  total_connections : Nat := 0
  successful_connections : Nat := 0
  failed_connections : Nat := 0
  total_transfers : Nat := 0
  successful_transfers : Nat := 0
  failed_transfers : Nat := 0
  latency_samples : List ℚ := []
deriving DecidableEq

/-- `PeerScore.update_connection_attempt` (with `time.time()` passed as
`now`): bump totals, on success refresh `last_seen` and fold an optional
latency sample into the trailing-20 average, then recompute the rate. -/
def PeerScore.update_connection_attempt (s : PeerScore) (success : Bool)
    (latency : Option ℚ) (now : ℚ) : PeerScore :=
  let s1 : PeerScore := { s with total_connections := s.total_connections + 1 }
  let s2 : PeerScore :=
    if success then
      let sa : PeerScore := { s1 with
        successful_connections := s1.successful_connections + 1, last_seen := now }
      match latency with
      | some lat =>
          let samples0 := sa.latency_samples ++ [lat]
          let samples := if samples0.length > 20
                         then samples0.drop (samples0.length - 20) else samples0
          { sa with latency_samples := samples,
                    average_latency := (samples.foldr (· + ·) 0) / (samples.length : ℚ) }
      | none => sa
    else { s1 with failed_connections := s1.failed_connections + 1 }
  if s2.total_connections > 0 then
    { s2 with connection_success_rate :=
        (s2.successful_connections : ℚ) / (s2.total_connections : ℚ) }
  else s2

/-- `PeerScore.update_transfer_attempt`. -/
def PeerScore.update_transfer_attempt (s : PeerScore) (success : Bool) : PeerScore :=
  let s1 : PeerScore := { s with total_transfers := s.total_transfers + 1 }
  let s2 : PeerScore :=
    if success then { s1 with successful_transfers := s1.successful_transfers + 1 }
    else { s1 with failed_transfers := s1.failed_transfers + 1 }
  if s2.total_transfers > 0 then
    { s2 with transfer_success_rate :=
        (s2.successful_transfers : ℚ) / (s2.total_transfers : ℚ) }
  else s2

/-- `PeerScore.calculate_overall_score`: 0.3·conn + 0.3·xfer +
0.2·latency + 0.2·uptime clamped to `[0, 1]`, with the latency score
`max(0, 1 − avg/1000)` when an average exists and 1 otherwise. -/
def PeerScore.calculate_overall_score (s : PeerScore) : ℚ :=
  let latency_score := if s.average_latency > 0
                       then max 0 (1 - s.average_latency / 1000) else 1
  let score := s.connection_success_rate * (3/10) + s.transfer_success_rate * (3/10)
      + latency_score * (2/10) + s.uptime_fraction * (2/10)
  max 0 (min 1 score)

/-- `PeerScore.should_blacklist` (with `time.time()` passed as `now`):
low connection success over ≥ 10 attempts, or low transfer success over
≥ 5 attempts, or more than 24 hours since last seen. -/
def PeerScore.should_blacklist (s : PeerScore) (now : ℚ) : Bool :=
  if s.total_connections ≥ 10 ∧ s.connection_success_rate < 1/10 then true
  else if s.total_transfers ≥ 5 ∧ s.transfer_success_rate < 1/5 then true
  else if now - s.last_seen > 86400 then true
  else false

/-- Association-list update modelling a Python dict entry assignment. -/
def insertA {α : Type} : List (String × α) → String → α → List (String × α)
  | [], k, v => [(k, v)]
  | (k2, v2) :: rest, k, v =>
      if k2 = k then (k, v) :: rest else (k2, v2) :: insertA rest k v

/-- `PeerResilienceManager` from `resilience.py`, restricted to the fields
the blacklisting path touches (`policy.blacklist_threshold`, the score,
state and blacklist dicts). -/
structure PeerResilienceManager where
  blacklist_threshold : ℚ
  peer_scores : List (String × PeerScore)
  peer_states : List (String × PeerStateE)
  blacklisted_peers : List (String × ℚ)
deriving DecidableEq

/-- `PeerResilienceManager.get_peer_score`: returns the stored score,
inserting a default one first when the peer is unknown. -/
def get_peer_score (m : PeerResilienceManager) (peer_id : String) :
    PeerScore × PeerResilienceManager :=
  match m.peer_scores.lookup peer_id with
  | some s => (s, m)
  | none => ({}, { m with peer_scores := insertA m.peer_scores peer_id {} })

/-- The score held for `peer_id` after the state-change bookkeeping of
`update_peer_state`: a successful connection attempt on a
CONNECTING/DISCONNECTED → CONNECTED transition, a failed one on FAILED,
and no change otherwise. -/
def updatedScore (m : PeerResilienceManager) (peer_id : String)
    (state : PeerStateE) (now : ℚ) : PeerScore :=
  let old := (m.peer_states.lookup peer_id).getD .UNKNOWN
  let score := (get_peer_score m peer_id).1
  if state = .CONNECTED ∧ (old = .CONNECTING ∨ old = .DISCONNECTED) then
    score.update_connection_attempt true none now
  else if state = .FAILED then
    score.update_connection_attempt false none now
  else score

/-- `PeerResilienceManager.update_peer_state` (with `time.time()` passed
as `now`).  The source's `_blacklist_peer` records the blacklist entry and
then unconditionally re-invokes `update_peer_state(peer_id, BLACKLISTED)`;
since the re-invocation re-establishes the same blacklist condition, the
Python recursion never terminates once it fires (it dies with a
`RecursionError`), so the model carries an explicit fuel parameter —
exhausted fuel is the stack-exhaustion point.  All claims are settled on
runs whose behaviour is independent of the fuel. -/
def update_peer_state : Nat → PeerResilienceManager → String → PeerStateE → ℚ →
    PeerResilienceManager
  | 0, m, _, _, _ => m
  | fuel + 1, m, peer_id, state, now =>
    let m1 := { m with peer_states := insertA m.peer_states peer_id state }
    let m2 := (get_peer_score m1 peer_id).2
    let score2 := updatedScore m peer_id state now
    let m3 := { m2 with peer_scores := insertA m2.peer_scores peer_id score2 }
    if score2.should_blacklist now ∧
        score2.calculate_overall_score < m.blacklist_threshold then
      let m4 := { m3 with blacklisted_peers := insertA m3.blacklisted_peers peer_id now }
      update_peer_state fuel m4 peer_id .BLACKLISTED now
    else m3

theorem insertA_lookup {α : Type} :
    ∀ (l : List (String × α)) (k q : String) (v : α),
      (insertA l k v).lookup q = if q = k then some v else l.lookup q
  | [], k, q, v => by
      by_cases hq : q = k
      · simp [insertA, List.lookup, hq]
      · have hb : (q == k) = false := beq_eq_false_iff_ne.mpr hq
        simp [insertA, List.lookup, hb, hq]
  | (k2, v2) :: rest, k, q, v => by
      by_cases hk : k2 = k
      · subst hk
        by_cases hq : q = k2
        · simp [insertA, List.lookup, hq]
        · have hb : (q == k2) = false := beq_eq_false_iff_ne.mpr hq
          simp [insertA, List.lookup, hb, hq]
      · by_cases hq : q = k2
        · subst hq
          have hqk : ¬ q = k := hk
          simp [insertA, hk, List.lookup, hqk]
        · have hb : (q == k2) = false := beq_eq_false_iff_ne.mpr hq
          by_cases hqk : q = k
          · subst hqk
            simp [insertA, hk, List.lookup, hb, insertA_lookup rest q q v]
          · simp [insertA, hk, List.lookup, hb, hqk, insertA_lookup rest k q v]

theorem get_peer_score_blacklisted (m : PeerResilienceManager) (peer_id : String) :
    ((get_peer_score m peer_id).2).blacklisted_peers = m.blacklisted_peers := by
  unfold get_peer_score
  cases m.peer_scores.lookup peer_id <;> rfl

theorem update_peer_state_blacklist_mono :
    ∀ (fuel : Nat) (m : PeerResilienceManager) (pid : String) (st : PeerStateE)
      (now : ℚ) (q : String), m.blacklisted_peers.lookup q ≠ none →
      (update_peer_state fuel m pid st now).blacklisted_peers.lookup q ≠ none
  | 0, m, _, _, _, q, h => h
  | fuel + 1, m, pid, st, now, q, h => by
      unfold update_peer_state
      dsimp only
      split_ifs with hcond
      · apply update_peer_state_blacklist_mono fuel
        rw [get_peer_score_blacklisted]
        rw [insertA_lookup]
        by_cases hq : q = pid
        · simp [hq]
        · simpa [hq] using h
      · rw [get_peer_score_blacklisted]
        exact h

/- ----------------------------------------------------------------------
   Claim C5 (src/beenet/core/resilience.py)
   ---------------------------------------------------------------------- -/

/-- A peer score with all defaults: perfect rates, never seen
(`last_seen = 0`). -/
def staleScore : PeerScore := {}

def c5Manager : PeerResilienceManager := ⟨1/20, [("p", staleScore)], [], []⟩

/-- C5 counterexample: at `now = 200000` the stale-peer condition
`now − last_seen > 86400` holds (so `should_blacklist` is true), yet a
score/state update does not enter the peer into the blacklist, because
`update_peer_state` additionally requires the overall score (here 1.0) to
be below `policy.blacklist_threshold = 0.05`. -/
theorem c5_counterexample_stale_peer_not_blacklisted :
    staleScore.should_blacklist 200000 = true ∧
    (200000 : ℚ) - staleScore.last_seen > 86400 ∧
    (update_peer_state 5 c5Manager "p" .DISCONNECTED 200000).blacklisted_peers = [] := by
  have hsb : staleScore.should_blacklist 200000 = true := by
    norm_num [PeerScore.should_blacklist, staleScore]
  refine ⟨hsb, by norm_num [staleScore], ?_⟩
  have hos : staleScore.calculate_overall_score = 1 := by
    norm_num [PeerScore.calculate_overall_score, staleScore]
  have hup : updatedScore c5Manager "p" .DISCONNECTED 200000 = staleScore := rfl
  have hcond : ¬ ((updatedScore c5Manager "p" .DISCONNECTED 200000).should_blacklist 200000
      = true ∧
      (updatedScore c5Manager "p" .DISCONNECTED 200000).calculate_overall_score
        < c5Manager.blacklist_threshold) := by
    rw [hup, hos]
    rintro ⟨-, hlt⟩
    norm_num [c5Manager] at hlt
  unfold update_peer_state
  dsimp only
  rw [if_neg hcond]
  rw [get_peer_score_blacklisted]
  rfl

/-- C5 (amended): `should_blacklist` returns true iff any one of the three
conditions holds (≥ 10 connection attempts with success rate < 0.1, ≥ 5
transfer attempts with success rate < 0.2, or more than 86400 s since
last seen); but a peer not yet blacklisted is entered into the blacklist
at a score/state update iff, in addition, the updated score's overall
value is below `policy.blacklist_threshold` (default 0.05). -/
theorem c5_blacklist_requires_low_overall_score
    (s : PeerScore) (fuel : Nat) (m : PeerResilienceManager) (pid : String)
    (st : PeerStateE) (now : ℚ)
    (hfuel : 1 ≤ fuel) (hnb : m.blacklisted_peers.lookup pid = none) :
    (s.should_blacklist now = true ↔
      ((10 ≤ s.total_connections ∧ s.connection_success_rate < 1/10) ∨
       (5 ≤ s.total_transfers ∧ s.transfer_success_rate < 1/5) ∨
       86400 < now - s.last_seen)) ∧
    ((update_peer_state fuel m pid st now).blacklisted_peers.lookup pid ≠ none ↔
      ((updatedScore m pid st now).should_blacklist now = true ∧
       (updatedScore m pid st now).calculate_overall_score < m.blacklist_threshold)) := by
  constructor
  · unfold PeerScore.should_blacklist
    split_ifs with h1 h2 h3
    · simp only [true_iff]
      exact Or.inl ⟨h1.1, h1.2⟩
    · simp only [true_iff]
      exact Or.inr (Or.inl ⟨h2.1, h2.2⟩)
    · simp only [true_iff]
      exact Or.inr (Or.inr h3)
    · simp only [Bool.false_eq_true, false_iff]
      push_neg at h1 h2
      rintro (⟨ha, hb⟩ | ⟨ha, hb⟩ | hcc)
      · exact absurd hb (not_lt.mpr (h1 ha))
      · exact absurd hb (not_lt.mpr (h2 ha))
      · exact absurd hcc h3
  · obtain ⟨f, rfl⟩ : ∃ f, fuel = f + 1 := ⟨fuel - 1, by omega⟩
    unfold update_peer_state
    dsimp only
    split_ifs with hcond
    · constructor
      · intro _
        exact hcond
      · intro _
        apply update_peer_state_blacklist_mono
        rw [get_peer_score_blacklisted, insertA_lookup]
        simp
    · constructor
      · intro hmem
        exfalso
        rw [get_peer_score_blacklisted] at hmem
        exact hmem hnb
      · intro hc
        exact absurd hc hcond

/-- Witness for the amended C5 at a concrete score/state update. -/
theorem c5_blacklist_requires_low_overall_score_witness :
    (1 : Nat) ≤ 5 ∧ c5Manager.blacklisted_peers.lookup "p" = none ∧
    ((staleScore.should_blacklist 200000 = true ↔
       ((10 ≤ staleScore.total_connections ∧ staleScore.connection_success_rate < 1/10) ∨
        (5 ≤ staleScore.total_transfers ∧ staleScore.transfer_success_rate < 1/5) ∨
        86400 < (200000 : ℚ) - staleScore.last_seen)) ∧
     ((update_peer_state 5 c5Manager "p" .DISCONNECTED 200000).blacklisted_peers.lookup "p"
         ≠ none ↔
       ((updatedScore c5Manager "p" .DISCONNECTED 200000).should_blacklist 200000 = true ∧
        (updatedScore c5Manager "p" .DISCONNECTED 200000).calculate_overall_score
          < c5Manager.blacklist_threshold))) :=
  ⟨by norm_num, rfl,
    c5_blacklist_requires_low_overall_score staleScore 5 c5Manager "p" .DISCONNECTED 200000
      (by norm_num) rfl⟩

/- ----------------------------------------------------------------------
   src/beenet/discovery/beequiet.py — claim C4
   ---------------------------------------------------------------------- -/

/-- The `peer_info` dict built by `_handle_i_am_here`. -/
structure PeerInfo where
  peer_id : String
  address : String
  port : Int
  last_seen : ℚ
  protocol : String
deriving DecidableEq

/-- The JSON fields `_handle_i_am_here` reads from an I_AM_HERE payload
(`get` returns `none` for a missing field). -/
structure IAmHerePayload where
  peer_id : Option String
  response : Option String
deriving DecidableEq

/-- The mutable discovery state of `BeeQuietDiscovery` that
`_handle_i_am_here` can touch: the node's own peer id, `_session_keys`
and `_discovered_peers` (both Python dicts keyed by `"host:port"`). -/
structure BeeQuietState where
  peer_id : String
  session_keys : List (String × Bytes)
  discovered_peers : List (String × PeerInfo)
deriving DecidableEq

def isHexDigit (c : Char) : Bool :=
  decide (('0' ≤ c ∧ c ≤ '9') ∨ ('a' ≤ c ∧ c ≤ 'f') ∨ ('A' ≤ c ∧ c ≤ 'F'))

/-- Validity of `bytes.fromhex` input (hex digits, even count; the
whitespace tolerance of Python's parser is immaterial here because the
handler discards the decoded bytes). -/
def isHexString (s : String) : Bool :=
  s.data.all isHexDigit && s.length % 2 == 0

/-- `BeeQuietDiscovery._handle_i_am_here` (with `time.time()` passed as
`now` and the sender address as `host`/`port`): on a falsy `peer_id` or
`response`, a self-message, or invalid hex (where `bytes.fromhex` raises
and the surrounding `except` swallows it), nothing changes; otherwise the
discovered-peer record is stored for the sender's address.  The source
discards the result of `bytes.fromhex(response_hex)` and never touches
`_session_keys`. -/
def handle_i_am_here (s : BeeQuietState) (payload : IAmHerePayload)
    (host : String) (port : Int) (now : ℚ) : BeeQuietState :=
  match payload.peer_id, payload.response with
  | some pid, some resp =>
    if pid = "" ∨ resp = "" ∨ pid = s.peer_id then s
    else if isHexString resp = false then s
    else
      let peer_addr := host ++ ":" ++ toString port
      let info : PeerInfo := ⟨pid, host, port, now, "beenet-beequiet"⟩
      { s with discovered_peers := insertA s.discovered_peers peer_addr info }
  | _, _ => s

/-- C4: the originator's `_handle_i_am_here`, on a valid I_AM_HERE from a
different peer, records the discovered peer but leaves `_session_keys`
unchanged on every input — it never derives or installs the session key
the claim (and spec step 3) require; the WHO nonce needed for the
HKDF derivation is not even retained by `send_who_is_here`. -/
theorem c4_handle_i_am_here_installs_no_session_key :
    ((handle_i_am_here ⟨"A", [], []⟩ ⟨some "B", some "00ff"⟩ "10.0.0.2" 7777
        100).discovered_peers.lookup "10.0.0.2:7777").map PeerInfo.peer_id = some "B" ∧
    (handle_i_am_here ⟨"A", [], []⟩ ⟨some "B", some "00ff"⟩ "10.0.0.2" 7777 100).session_keys
      = [] ∧
    ∀ (s : BeeQuietState) (payload : IAmHerePayload) (host : String) (port : Int) (now : ℚ),
      (handle_i_am_here s payload host port now).session_keys = s.session_keys := by
  refine ⟨by decide, by decide, ?_⟩
  intro s payload host port now
  rcases payload with ⟨pid, resp⟩
  rcases pid with _ | pid
  · rcases resp with _ | resp <;> rfl
  · rcases resp with _ | resp
    · rfl
    · unfold handle_i_am_here
      dsimp only
      split_ifs <;> rfl

/- ----------------------------------------------------------------------
   src/beenet/discovery/beequiet.py — claim C9
   ---------------------------------------------------------------------- -/

/-- Modelled from the spec: the ChaCha20-Poly1305 sealing primitive of the
external `cryptography` library (not part of this repository), modelled by
its AEAD contract (spec §4.5 AEAD policy and testable property 4): the
sealed bytes are `ciphertext‖tag` with the tag binding key and nonce, and
opening succeeds exactly under the sealing key and nonce. -/
def chacha20poly1305_encrypt (key nonce plaintext : Bytes) : Bytes :=
  plaintext ++ key ++ nonce

/-- Modelled from the spec: the opening half of the ChaCha20-Poly1305
contract — recompute and compare the trailing tag; on mismatch (wrong key
or nonce) fail. -/
def chacha20poly1305_decrypt (key nonce ct : Bytes) : Option Bytes :=
  if ct.length < key.length + nonce.length then none
  else if ct.drop (ct.length - (key.length + nonce.length)) = key ++ nonce
  then some (ct.take (ct.length - (key.length + nonce.length)))
  else none

/-- The key normalization of `_encrypt_payload`/`_decrypt_payload`:
zero-pad short keys, truncate long ones to exactly 32 bytes. -/
def normalize_session_key (k : Bytes) : Bytes :=
  if k.length = 32 then k
  else if k.length < 32 then k ++ List.replicate (32 - k.length) 0
  else k.take 32

/-- `BeeQuietDiscovery._encrypt_payload` (the fresh 12-byte random nonce
is passed as a parameter): prepend the nonce to the sealed payload. -/
def encrypt_payload (payload session_key nonce : Bytes) : Bytes :=
  nonce ++ chacha20poly1305_encrypt (normalize_session_key session_key) nonce payload

/-- `BeeQuietDiscovery._decrypt_payload`: payloads shorter than 12 bytes
raise; otherwise split off the 12-byte nonce and open the remainder,
raising `DiscoveryError` on failure. -/
def decrypt_payload (encrypted_payload session_key : Bytes) : Except String Bytes :=
  if encrypted_payload.length < 12 then .error "Encrypted payload too short"
  else
    match chacha20poly1305_decrypt (normalize_session_key session_key)
        (encrypted_payload.take 12) (encrypted_payload.drop 12) with
    | some pt => .ok pt
    | none => .error "Failed to decrypt payload"

/-- `BeeQuietDiscovery.decrypt_message`: `_decrypt_payload` with every
failure caught and turned into the absent value. -/
def decrypt_message (encrypted_message session_key : Bytes) : Option Bytes :=
  (decrypt_payload encrypted_message session_key).toOption

/-- C9: for every plaintext and 32-byte key, decrypting the BeeQuiet AEAD
envelope (12-byte nonce prepended to ciphertext-with-tag) with the same
key yields the plaintext, and decrypting with any other 32-byte key fails
with `none`.  The ChaCha20-Poly1305 primitive itself is external library
code, modelled from the spec by its AEAD contract. -/
theorem c9_aead_roundtrip_and_key_binding
    (P K K2 nonce : Bytes) (hK : K.length = 32) (hK2 : K2.length = 32)
    (hn : nonce.length = 12) :
    decrypt_message (encrypt_payload P K nonce) K = some P ∧
    (K2 ≠ K → decrypt_message (encrypt_payload P K nonce) K2 = none) := by
  have hnormK : normalize_session_key K = K := by simp [normalize_session_key, hK]
  have hnormK2 : normalize_session_key K2 = K2 := by simp [normalize_session_key, hK2]
  have henc : encrypt_payload P K nonce = nonce ++ (P ++ (K ++ nonce)) := by
    simp [encrypt_payload, chacha20poly1305_encrypt, hnormK]
  have htake : (nonce ++ (P ++ (K ++ nonce))).take 12 = nonce := by
    rw [← hn, List.take_left]
  have hdrop : (nonce ++ (P ++ (K ++ nonce))).drop 12 = P ++ (K ++ nonce) := by
    rw [← hn, List.drop_left]
  have hlen : (P ++ (K ++ nonce)).length = P.length + 44 := by
    simp [hK, hn]
  have hdropP : (P ++ (K ++ nonce)).drop P.length = K ++ nonce := List.drop_left _ _
  have hlenfull : (nonce ++ (P ++ (K ++ nonce))).length = P.length + 56 := by
    simp [hK, hn]
    omega
  constructor
  · unfold decrypt_message decrypt_payload
    rw [henc, if_neg (by rw [hlenfull]; omega), hnormK, htake, hdrop]
    unfold chacha20poly1305_decrypt
    rw [if_neg (by rw [hlen, hK, hn]; omega)]
    have hsub : (P ++ (K ++ nonce)).length - (K.length + nonce.length) = P.length := by
      rw [hlen, hK, hn]
      omega
    rw [hsub, hdropP, if_pos rfl, List.take_left]
    rfl
  · intro hne
    unfold decrypt_message decrypt_payload
    rw [henc, if_neg (by rw [hlenfull]; omega), hnormK2, htake, hdrop]
    unfold chacha20poly1305_decrypt
    rw [if_neg (by rw [hlen, hK2, hn]; omega)]
    have hsub : (P ++ (K ++ nonce)).length - (K2.length + nonce.length) = P.length := by
      rw [hlen, hK2, hn]
      omega
    rw [hsub, hdropP]
    rw [if_neg ?hne2]
    · rfl
    case hne2 =>
      intro hcon
      exact hne (List.append_inj_left hcon (by rw [hK, hK2])).symm

/-- Witness for C9 at a concrete plaintext, key pair and nonce. -/
theorem c9_aead_roundtrip_and_key_binding_witness :
    (List.replicate 32 0 : Bytes).length = 32 ∧
    (List.replicate 32 1 : Bytes).length = 32 ∧
    (List.replicate 12 0 : Bytes).length = 12 ∧
    (List.replicate 32 1 : Bytes) ≠ List.replicate 32 0 ∧
    decrypt_message (encrypt_payload [1, 2, 3] (List.replicate 32 0) (List.replicate 12 0))
      (List.replicate 32 0) = some [1, 2, 3] ∧
    decrypt_message (encrypt_payload [1, 2, 3] (List.replicate 32 0) (List.replicate 12 0))
      (List.replicate 32 1) = none :=
  ⟨by decide, by decide, by decide, by decide,
    (c9_aead_roundtrip_and_key_binding [1, 2, 3] (List.replicate 32 0) (List.replicate 32 1)
      (List.replicate 12 0) (by decide) (by decide) (by decide)).1,
    (c9_aead_roundtrip_and_key_binding [1, 2, 3] (List.replicate 32 0) (List.replicate 32 1)
      (List.replicate 12 0) (by decide) (by decide) (by decide)).2 (by decide)⟩

/- ----------------------------------------------------------------------
   src/beenet/crypto/identity.py — claim C6
   ---------------------------------------------------------------------- -/

/-- `Identity.verify_signature` from `identity.py`.  `ed` abstracts the
external PyNaCl Ed25519 check on a 64-byte signature and 32-byte key
(success → `True`, `BadSignatureError` → `False` in the source).  A public
key whose length is not 32 raises `CryptoError` (modelled as `.error`);
a signature whose length is not 64 makes PyNaCl raise
`ValueError("The signature must be exactly 64 bytes long")`, which the
source catches and turns into `False`. -/
def verify_signature (ed : Bytes → Bytes → Bytes → Bool)
    (message signature public_key : Bytes) : Except String Bool :=
  if public_key.length ≠ 32 then
    .error "CryptoError: invalid public key length"
  else if signature.length ≠ 64 then .ok false
  else .ok (ed message signature public_key)

/-- C6 counterexample: for an empty public key (length 0 ≠ 32) the claim
says verification returns false without raising, but `verify_signature`
raises `CryptoError` (its own unit test
`test_identity_error_handling` expects exactly that). -/
theorem c6_counterexample_short_key_raises :
    (verify_signature (fun _ _ _ => false) [1] (List.replicate 64 0) []).isOk = false ∧
    verify_signature (fun _ _ _ => false) [1] (List.replicate 64 0) [] ≠ .ok false := by
  constructor
  · rfl
  · intro hcon
    simp [verify_signature] at hcon

/-- C6 (amended): with a 32-byte public key, `verify_signature` returns a
boolean for every 64-byte signature and returns false without raising for
a signature of any other length; for a public key of any other length it
raises `CryptoError` instead of returning. -/
theorem c6_verify_signature_length_handling
    (ed : Bytes → Bytes → Bytes → Bool) (message signature public_key : Bytes) :
    (public_key.length = 32 → signature.length = 64 →
      verify_signature ed message signature public_key
        = .ok (ed message signature public_key)) ∧
    (public_key.length = 32 → signature.length ≠ 64 →
      verify_signature ed message signature public_key = .ok false) ∧
    (public_key.length ≠ 32 →
      (verify_signature ed message signature public_key).isOk = false) := by
  unfold verify_signature
  refine ⟨fun h1 h2 => ?_, fun h1 h2 => ?_, fun h1 => ?_⟩
  · rw [if_neg (by simp [h1]), if_neg (by simp [h2])]
  · rw [if_neg (by simp [h1]), if_pos h2]
  · rw [if_pos h1]
    rfl

/-- Witness for the amended C6: one instance per length regime. -/
theorem c6_verify_signature_length_handling_witness :
    ((List.replicate 32 0 : Bytes).length = 32 ∧
      (List.replicate 64 0 : Bytes).length = 64 ∧
      verify_signature (fun _ _ _ => true) [] (List.replicate 64 0) (List.replicate 32 0)
        = .ok true) ∧
    ((List.replicate 32 0 : Bytes).length = 32 ∧ ([9] : Bytes).length ≠ 64 ∧
      verify_signature (fun _ _ _ => true) [] [9] (List.replicate 32 0) = .ok false) ∧
    (([] : Bytes).length ≠ 32 ∧
      (verify_signature (fun _ _ _ => true) [] (List.replicate 64 0) []).isOk = false) :=
  ⟨⟨by decide, by decide,
      (c6_verify_signature_length_handling (fun _ _ _ => true) [] (List.replicate 64 0)
        (List.replicate 32 0)).1 (by decide) (by decide)⟩,
    ⟨by decide, by decide,
      (c6_verify_signature_length_handling (fun _ _ _ => true) [] [9]
        (List.replicate 32 0)).2.1 (by decide) (by decide)⟩,
    ⟨by decide,
      (c6_verify_signature_length_handling (fun _ _ _ => true) [] (List.replicate 64 0)
        []).2.2 (by decide)⟩⟩
